import Mathlib

/-!
Verification of the `bsc::value_ptr` value-semantics smart pointer
(src/include/value_ptr/value_ptr.h) against its natural-language specification.

The embedding is a shallow one over an explicit heap:

* C++ class hierarchies are abstracted by a type `CTy` of concrete class types,
  a type `Val` of object contents, a family `cr : CTy → Val → Option Val`
  giving the effect of each class's copy constructor on the contents
  (`none` models a throwing copy constructor), and a family
  `obs : CTy → Val → Nat` giving the result of calling a virtual member
  function, dispatched on the object's dynamic type.
* Heap objects are pairs of a dynamic type and a value; `new D(*p)` where the
  static type of `p` is `D` produces an object of dynamic type `D`
  (truncating, i.e. slicing, any more-derived dynamic type of `*p`).
* The heap `Mem` tracks an allocation counter, the association list of live
  objects, and the list of freed addresses (each application of the deletion
  policy appends one entry, so double frees are observable as duplicates).
* `Shim` embeds `value_ptr<T>::pmr_model<D>`: the concrete instantiation type
  `D` and the owned pointer `ptr_` (`none` after `pmr_model::release`).
  The reference member `model_deleter_` only forwards deletions and carries no
  state relevant to the claims, so it is not tracked.
* `Cell` embeds `value_ptr<T, Deleter>`: the declared type `T`, the possibly
  null `impl_`, and the deleter value `deleter_`.
* Undefined behaviour (reading through a null `impl_`) is modelled by
  `Option`-valued results: `none` means the C++ source has no defined result.
-/

namespace ValuePtr

/-- A heap object: its dynamic (concrete) type and its contents. -/
structure Obj (CTy Val : Type) where
  dyn : CTy
  val : Val
deriving DecidableEq

/-- The heap: allocation counter, live objects, and freed addresses.
Each application of the deletion policy appends one entry to `freed`. -/
structure Mem (CTy Val : Type) where
  next : Nat
  live : List (Nat × Obj CTy Val)
  freed : List Nat
deriving DecidableEq

variable {CTy Val Del : Type}

/-- The empty heap. -/
def Mem.empty : Mem CTy Val := ⟨0, [], []⟩

/-- Read the object stored at address `a`, if live. -/
def Mem.lookup (m : Mem CTy Val) (a : Nat) : Option (Obj CTy Val) :=
  (m.live.find? (fun e => e.1 == a)).map (fun e => e.2)

/-- `new`: allocate a fresh address for object `o`. -/
def Mem.alloc (m : Mem CTy Val) (o : Obj CTy Val) : Nat × Mem CTy Val :=
  (m.next, ⟨m.next + 1, (m.next, o) :: m.live, m.freed⟩)

/-- Apply the deletion policy to address `a`: the object dies and the
deletion is recorded. -/
def Mem.free (m : Mem CTy Val) (a : Nat) : Mem CTy Val :=
  ⟨m.next, m.live.filter (fun e => e.1 != a), a :: m.freed⟩

/-- Embedding of `value_ptr<T>::pmr_model<D>`: `cty` is the concrete
instantiation parameter `D`, `ptr` is the member `ptr_`
(`none` after `pmr_model::release`). -/
structure Shim (CTy : Type) where
  cty : CTy
  ptr : Option Nat
deriving DecidableEq

/-- `pmr_model<D>::clone`: `new pmr_model<D>(new D(*ptr_), model_deleter_)`.
The freshly allocated object has dynamic type `D` (= `s.cty`) and contents
given by `D`'s copy constructor; the new shim keeps the same concrete
instantiation `D`.  `none` models undefined behaviour (`ptr_` null or
dangling) or a throwing copy constructor. -/
def Shim.clone (cr : CTy → Val → Option Val) (s : Shim CTy) (m : Mem CTy Val) :
    Option (Shim CTy × Mem CTy Val) :=
  match s.ptr with
  | none => none
  | some a =>
    match m.lookup a with
    | none => none
    | some o =>
      match cr s.cty o.val with
      | none => none
      | some v =>
        let am := m.alloc ⟨s.cty, v⟩
        some (⟨s.cty, some am.1⟩, am.2)

/-- `pmr_model<D>::~pmr_model`: applies the deletion policy to `ptr_` iff
`ptr_` is non-null. -/
def Shim.destroy (s : Shim CTy) (m : Mem CTy Val) : Mem CTy Val :=
  match s.ptr with
  | some a => m.free a
  | none => m

/-- `pmr_model<D>::release`: returns `ptr_` and nulls it out. -/
def Shim.releaseModel (s : Shim CTy) : Option Nat × Shim CTy :=
  (s.ptr, ⟨s.cty, none⟩)

/-- Embedding of `value_ptr<T, Deleter>`: declared type `T`, the possibly
null `impl_`, and the deleter value `deleter_`. -/
structure Cell (CTy Del : Type) where
  declTy : CTy
  impl : Option (Shim CTy)
  del : Del
deriving DecidableEq

/-- `explicit value_ptr(U* ptr)`: default-constructs the deleter (`d0`) and
builds `new pmr_model<U>(ptr, deleter_)`; `u` is the static type `U` of the
raw pointer argument. -/
def Cell.fromRaw (t u : CTy) (p : Option Nat) (d0 : Del) : Cell CTy Del :=
  ⟨t, some ⟨u, p⟩, d0⟩

/-- `value_ptr(nullptr)` / default construction: an empty cell. -/
def Cell.null (t : CTy) (d0 : Del) : Cell CTy Del :=
  ⟨t, none, d0⟩

/-- `operator bool`: true iff `impl_` is non-null. -/
def Cell.toBool (c : Cell CTy Del) : Bool :=
  c.impl.isSome

/-- `value_ptr(value_ptr const& other)` (same declared type): copies the
deleter and clones `other.impl_` when non-null.  `none` only when the clone
(the concrete copy constructor) fails. -/
def Cell.copy (cr : CTy → Val → Option Val) (other : Cell CTy Del)
    (m : Mem CTy Val) : Option (Cell CTy Del × Mem CTy Val) :=
  match other.impl with
  | none => some (⟨other.declTy, none, other.del⟩, m)
  | some s =>
    match s.clone cr m with
    | none => none
    | some (s2, m2) => some (⟨other.declTy, some s2, other.del⟩, m2)

/-- `value_ptr(value_ptr<U, D> const& other)` (converting constructor,
target declared type `t`): runs `other.impl_->clone()` unconditionally (so an
empty source is undefined behaviour, modelled by `none`), then wraps the
cloned object's pointer in `new pmr_model<U>(clone->release(), deleter_)`
where `U` is the *source's declared type*, and leaves its own deleter
default-constructed (`d0`).  `delete clone` frees nothing because the clone
was released first. -/
def Cell.convert (cr : CTy → Val → Option Val) (t : CTy) (d0 : Del)
    (other : Cell CTy Del) (m : Mem CTy Val) :
    Option (Cell CTy Del × Mem CTy Val) :=
  match other.impl with
  | none => none
  | some s =>
    match s.clone cr m with
    | none => none
    | some (c, m2) => some (⟨t, some ⟨other.declTy, c.ptr⟩, d0⟩, m2)

/-- `value_ptr(value_ptr&& other)`: returns (new cell, moved-from source).
The shim pointer transfers, the source's `impl_` is nulled, and the heap is
not touched at all (no allocation, no copy). -/
def Cell.moveCtor (other : Cell CTy Del) : Cell CTy Del × Cell CTy Del :=
  (⟨other.declTy, other.impl, other.del⟩, ⟨other.declTy, none, other.del⟩)

/-- `~value_ptr`: `delete impl_` if non-null, which applies the deletion
policy to the owned object iff the shim still owns one. -/
def Cell.destroy (c : Cell CTy Del) (m : Mem CTy Val) : Mem CTy Val :=
  match c.impl with
  | some s => s.destroy m
  | none => m

/-- `value_ptr::swap`: exchanges `impl_` and `deleter_`. -/
def Cell.swapOp (a b : Cell CTy Del) : Cell CTy Del × Cell CTy Del :=
  (⟨a.declTy, b.impl, b.del⟩, ⟨b.declTy, a.impl, a.del⟩)

/-- `operator=(value_ptr other)` (copy-and-swap, by-value parameter): the
parameter is copy-constructed from the source first; if that clone fails the
exception propagates before the target is touched (flag `false`, target and
heap unchanged).  Otherwise the target swaps with the parameter and the
parameter's destructor frees the target's old object.
Returns (succeeded, new target, heap). -/
def Cell.assign (cr : CTy → Val → Option Val) (a b : Cell CTy Del)
    (m : Mem CTy Val) : Bool × Cell CTy Del × Mem CTy Val :=
  match Cell.copy cr b m with
  | none => (false, a, m)
  | some (tmp, m2) =>
    let sw := Cell.swapOp a tmp
    (true, sw.1, sw.2.destroy m2)

/-- `b = std::move(a)` for distinct cells: the by-value parameter is
move-constructed from `a` (emptying it), swapped with `b`, and its destructor
frees `b`'s old object.  Returns (new target, new source, heap). -/
def Cell.moveAssign (b a : Cell CTy Del) (m : Mem CTy Val) :
    Cell CTy Del × Cell CTy Del × Mem CTy Val :=
  let mv := Cell.moveCtor a
  let sw := Cell.swapOp b mv.1
  (sw.1, mv.2, sw.2.destroy m)

/-- `a = std::move(a)`: the parameter is move-constructed from `a` itself
(so `a.impl_` is nulled first), then swapped with the now-empty `a`, and the
parameter's destructor runs on an empty cell. -/
def Cell.moveAssignSelf (a : Cell CTy Del) (m : Mem CTy Val) :
    Cell CTy Del × Mem CTy Val :=
  let mv := Cell.moveCtor a
  let sw := Cell.swapOp mv.2 mv.1
  (sw.1, sw.2.destroy m)

/-- `value_ptr::reset(T* ptr = nullptr)`: destroys the current shim (freeing
the owned object), then — as in the source — wraps the new pointer in
`new pmr_model<T>(ptr, deleter_)` where `T` is the cell's *declared* type
(`c.declTy`), not the pointer's dynamic type. -/
def Cell.reset (c : Cell CTy Del) (p : Option Nat) (m : Mem CTy Val) :
    Cell CTy Del × Mem CTy Val :=
  let m2 := c.destroy m
  match p with
  | some a => (⟨c.declTy, some ⟨c.declTy, some a⟩, c.del⟩, m2)
  | none => (⟨c.declTy, none, c.del⟩, m2)

/-- `value_ptr::release`: `impl_->release()` (undefined behaviour when
`impl_` is null, modelled by `none`), then `delete impl_` — which frees
nothing because the shim was emptied — and the cell becomes empty.
Returns (raw pointer value, emptied cell, heap). -/
def Cell.releaseOp (c : Cell CTy Del) (m : Mem CTy Val) :
    Option (Option Nat × Cell CTy Del × Mem CTy Val) :=
  match c.impl with
  | none => none
  | some s =>
    let rm := s.releaseModel
    some (rm.1, ⟨c.declTy, none, c.del⟩, rm.2.destroy m)

/-- `value_ptr::get` (also `operator->`): `impl_->get()`, i.e. the stored raw
pointer.  The outer `none` models the undefined read through a null `impl_`;
the inner `Option Nat` is the raw pointer value itself (`none` = `nullptr`). -/
def Cell.rawGet (c : Cell CTy Del) : Option (Option Nat) :=
  c.impl.map Shim.ptr

/-- `c->f()` for a virtual member `f`: reads through the shim and the heap and
dispatches on the stored object's dynamic type. -/
def Cell.callVirt (obs : CTy → Val → Nat) (c : Cell CTy Del)
    (m : Mem CTy Val) : Option Nat :=
  match c.impl with
  | none => none
  | some s =>
    match s.ptr with
    | none => none
    | some a =>
      match m.lookup a with
      | none => none
      | some o => some (obs o.dyn o.val)

/-- `make_val<T>(args...)`: `value_ptr<T>(new T(args...))`. -/
def make_val (t : CTy) (v : Val) (d0 : Del) (m : Mem CTy Val) :
    Cell CTy Del × Mem CTy Val :=
  let am := m.alloc ⟨t, v⟩
  (Cell.fromRaw t t (some am.1) d0, am.2)

/-- Modelled from the spec: `make_derived_value<Base, Derived>` (spelled
`make_derived_val` by the repository's tests) is used by
src/test/unit/value_ptr.cpp but is not defined anywhere under src/.  Per
spec §4.3 it allocates a `Derived` from the given arguments and wraps it in a
cell declared as `Base`, the shim capturing the `Derived` concrete type (as
`value_ptr<Base>(new Derived(args...))` would). -/
def make_derived_val (b d : CTy) (v : Val) (d0 : Del) (m : Mem CTy Val) :
    Cell CTy Del × Mem CTy Val :=
  let am := m.alloc ⟨d, v⟩
  (Cell.fromRaw b d (some am.1) d0, am.2)

/-!  Concrete class hierarchies from the repository's test suite.  -/

/-- The hierarchy of src/test/unit/fixes.cpp: `slice_base` with
`virtual char f() const { return 'S'; }` and `slice : slice_base` overriding
`f` to return `'T'`. -/
inductive SliceTy : Type
  | sbase
  | sder
deriving DecidableEq

/-- Virtual dispatch for the fixes.cpp hierarchy: `f()` returns `'S'` (83) on
a `slice_base` and `'T'` (84) on a `slice`. -/
def sliceObs : SliceTy → Unit → Nat
  | SliceTy.sbase, _ => 83
  | SliceTy.sder, _ => 84

/-- Copy construction in the fixes.cpp hierarchy: both classes are stateless
and their copy constructors always succeed. -/
def sliceCopy : SliceTy → Unit → Option Unit :=
  fun _ _ => some ()

/-- The hierarchy of the `make_derived_val` test in
src/test/unit/value_ptr.cpp: `Base` with `virtual int val() { return 0; }`
and `Derived : Base` holding `v_`, whose copy constructor stores `od.v_ + 1`
and whose `val()` returns `v_`. -/
inductive BDTy : Type
  | base
  | der
deriving DecidableEq

/-- Virtual dispatch for the `Base`/`Derived` hierarchy. -/
def bdObs : BDTy → Nat → Nat
  | BDTy.base, _ => 0
  | BDTy.der, v => v

/-- Copy construction for the `Base`/`Derived` hierarchy: `Derived`'s copy
constructor increments the stored value. -/
def bdCopy : BDTy → Nat → Option Nat
  | BDTy.base, v => some v
  | BDTy.der, v => some (v + 1)

/-- `std::less` on raw pointer values: the null pointer precedes every
object address, and addresses compare by the total order on `Nat`. -/
def ptrLt : Option Nat → Option Nat → Bool
  | none, none => false
  | none, some _ => true
  | some _, none => false
  | some x, some y => decide (x < y)

/-- `operator==(value_ptr, value_ptr)`: `a.get() == b.get()` — both `get`
calls read through the shim pointer, so the result is only defined when both
cells are non-empty. -/
def Cell.eqCell (a b : Cell CTy Del) : Option Bool :=
  match a.rawGet, b.rawGet with
  | some x, some y => some (x == y)
  | _, _ => none

/-- `operator!=(value_ptr, value_ptr)`: `a.get() != b.get()`. -/
def Cell.neCell (a b : Cell CTy Del) : Option Bool :=
  match a.rawGet, b.rawGet with
  | some x, some y => some (x != y)
  | _, _ => none

/-- `operator<(value_ptr, value_ptr)`: `std::less<CT>()(a.get(), b.get())`. -/
def Cell.ltCell (a b : Cell CTy Del) : Option Bool :=
  match a.rawGet, b.rawGet with
  | some x, some y => some (ptrLt x y)
  | _, _ => none

/-- `operator<=(value_ptr, value_ptr)`: `!(b < a)`. -/
def Cell.leCell (a b : Cell CTy Del) : Option Bool :=
  (Cell.ltCell b a).map (fun r => !r)

/-- `operator>(value_ptr, value_ptr)`: `b < a`. -/
def Cell.gtCell (a b : Cell CTy Del) : Option Bool :=
  Cell.ltCell b a

/-- `operator>=(value_ptr, value_ptr)`: `!(a < b)`. -/
def Cell.geCell (a b : Cell CTy Del) : Option Bool :=
  (Cell.ltCell a b).map (fun r => !r)

/-- `operator==(value_ptr, nullptr_t)`: `!a` — boolean conversion only, so it
is defined for empty cells, true iff the cell is empty. -/
def Cell.eqNull (a : Cell CTy Del) : Bool :=
  !a.toBool

/-- `operator!=(value_ptr, nullptr_t)`: `(bool)a`. -/
def Cell.neNull (a : Cell CTy Del) : Bool :=
  a.toBool

/-- `operator<(value_ptr, nullptr_t)`: `std::less(a.get(), nullptr)` — calls
`get`, hence defined only for non-empty cells. -/
def Cell.ltNull (a : Cell CTy Del) : Option Bool :=
  a.rawGet.map (fun x => ptrLt x none)

/-- `operator<(nullptr_t, value_ptr)`: `std::less(nullptr, a.get())`. -/
def Cell.nullLt (a : Cell CTy Del) : Option Bool :=
  a.rawGet.map (fun x => ptrLt none x)

/-- `operator<=(value_ptr, nullptr_t)`: `!(nullptr < a)`. -/
def Cell.leNull (a : Cell CTy Del) : Option Bool :=
  (Cell.nullLt a).map (fun r => !r)

/-- `operator<=(nullptr_t, value_ptr)`: `!(a < nullptr)`. -/
def Cell.nullLe (a : Cell CTy Del) : Option Bool :=
  (Cell.ltNull a).map (fun r => !r)

/-- `operator>(value_ptr, nullptr_t)`: `nullptr < a`. -/
def Cell.gtNull (a : Cell CTy Del) : Option Bool :=
  Cell.nullLt a

/-- `operator>(nullptr_t, value_ptr)`: `a < nullptr`. -/
def Cell.nullGt (a : Cell CTy Del) : Option Bool :=
  Cell.ltNull a

/-- `operator>=(value_ptr, nullptr_t)`: `!(a < nullptr)`. -/
def Cell.geNull (a : Cell CTy Del) : Option Bool :=
  (Cell.ltNull a).map (fun r => !r)

/-- `operator>=(nullptr_t, value_ptr)`: `!(nullptr < a)`. -/
def Cell.nullGe (a : Cell CTy Del) : Option Bool :=
  (Cell.nullLt a).map (fun r => !r)

/-- `std::hash<value_ptr<T, D>>`: hashes the raw pointer `ptr.get()` with the
pointer type's hash function `hf`. -/
def Cell.hashOf (hf : Option Nat → Nat) (c : Cell CTy Del) : Option Nat :=
  c.rawGet.map hf

/-- The run of test "#15: calling reset then copying slices objects"
(src/test/unit/fixes.cpp): `auto ptr = make_val<slice_base>();
ptr.reset(new slice()); auto p2 = ptr;` — returning
(`ptr->f()` after the reset, `p2->f()` after the copy). -/
def fixes15 : Option Nat × Option Nat :=
  let s0 := @make_val SliceTy Unit Unit SliceTy.sbase () () Mem.empty
  let an := s0.2.alloc ⟨SliceTy.sder, ()⟩
  let s1 := s0.1.reset (some an.1) an.2
  let mid := s1.1.callVirt sliceObs s1.2
  match Cell.copy sliceCopy s1.1 s1.2 with
  | none => (mid, none)
  | some cm => (mid, cm.1.callVirt sliceObs cm.2)

/-- The run of test "make_derived_val can be used / derived copies are made"
(src/test/unit/value_ptr.cpp lines 396-404):
`auto vp = make_derived_val<Base, Derived>(22); auto vp2 = vp;` — returning
(`vp->val()` before the copy, `vp2->val()`, `vp->val()` after the copy). -/
def c4scenario : Option Nat × Option Nat × Option Nat :=
  let s1 := @make_derived_val BDTy Nat Unit BDTy.base BDTy.der 22 () Mem.empty
  let before := s1.1.callVirt bdObs s1.2
  match Cell.copy bdCopy s1.1 s1.2 with
  | none => (before, none, none)
  | some cm => (before, cm.1.callVirt bdObs cm.2, s1.1.callVirt bdObs cm.2)

/-!
Operational semantics for the lifetime claims: a state holds a list of cell
slots (`none` once the cell at that slot has been destroyed), the heap, and
the addresses handed to the caller by `release` (which the caller, not the
cell, then owns).  Programs are arbitrary sequences of the cell operations
exercised by the repository's test suite.
-/

/-- Number of live heap entries at address `a` (0 or 1 in reachable
states). -/
def liveCount (m : Mem CTy Val) (a : Nat) : Nat :=
  m.live.countP (fun e => e.1 == a)

/-- Number of times the deletion policy has been applied to address `a`. -/
def freedCount (m : Mem CTy Val) (a : Nat) : Nat :=
  m.freed.count a

/-- The address a cell currently owns through its shim, if any. -/
def Cell.ownedPtr (c : Cell CTy Del) : Option Nat :=
  match c.impl with
  | some s => s.ptr
  | none => none

/-- The address owned by a cell slot. -/
def entryPtr : Option (Cell CTy Del) → Option Nat
  | some c => c.ownedPtr
  | none => none

/-- Does the cell slot own address `a`? -/
def ownsB (a : Nat) (oc : Option (Cell CTy Del)) : Bool :=
  match entryPtr oc with
  | some b => b == a
  | none => false

/-- Number of cell slots owning address `a`. -/
def numOwners (cs : List (Option (Cell CTy Del))) (a : Nat) : Nat :=
  cs.countP (ownsB a)

/-- A program state: cell slots, the heap, and the released addresses now
owned by the caller. -/
structure St (CTy Val Del : Type) where
  cells : List (Option (Cell CTy Del))
  mem : Mem CTy Val
  rel : List Nat

/-- The cell operations exercised by the test suite.  Indices refer to cell
slots; operations whose C++ preconditions fail (missing slot, empty cell
where the source dereferences the shim, throwing clone) leave the state
unchanged, modelling only defined executions. -/
inductive Op (CTy Val : Type) where
  | mkFrom (t u : CTy) (v : Val)
  | copyFrom (i : Nat)
  | convertFrom (t : CTy) (i : Nat)
  | moveFrom (i : Nat)
  | assignFrom (i j : Nat)
  | moveAssignBetween (i j : Nat)
  | resetNew (i : Nat) (c : CTy) (v : Val)
  | resetNull (i : Nat)
  | releaseKeep (i : Nat)
  | dropCell (i : Nat)

/-- One step of the semantics: `mkFrom t u v` is
`value_ptr<T>(new U(v))` appended as a new slot; `copyFrom`/`convertFrom`
append a copy; `moveFrom` appends a move-constructed cell; `assignFrom i j`
is `cells[i] = cells[j]` (copy-assignment, including self-assignment when
`i = j`); `moveAssignBetween i j` is `cells[i] = std::move(cells[j])`;
`resetNew i c v` is `cells[i].reset(new C(v))`; `releaseKeep i` releases
slot `i`'s object to the caller; `dropCell i` destroys the cell at slot
`i` (scope exit). -/
def step (cr : CTy → Val → Option Val) (d0 : Del) (st : St CTy Val Del) :
    Op CTy Val → St CTy Val Del
  | Op.mkFrom t u v =>
    let am := st.mem.alloc ⟨u, v⟩
    ⟨st.cells ++ [some (Cell.fromRaw t u (some am.1) d0)], am.2, st.rel⟩
  | Op.copyFrom i =>
    match st.cells[i]? with
    | some (some c) =>
      match Cell.copy cr c st.mem with
      | some r => ⟨st.cells ++ [some r.1], r.2, st.rel⟩
      | none => st
    | _ => st
  | Op.convertFrom t i =>
    match st.cells[i]? with
    | some (some c) =>
      match Cell.convert cr t d0 c st.mem with
      | some r => ⟨st.cells ++ [some r.1], r.2, st.rel⟩
      | none => st
    | _ => st
  | Op.moveFrom i =>
    match st.cells[i]? with
    | some (some c) =>
      let mv := Cell.moveCtor c
      ⟨(st.cells.set i (some mv.2)) ++ [some mv.1], st.mem, st.rel⟩
    | _ => st
  | Op.assignFrom i j =>
    match st.cells[i]?, st.cells[j]? with
    | some (some ci), some (some cj) =>
      let r := Cell.assign cr ci cj st.mem
      ⟨st.cells.set i (some r.2.1), r.2.2, st.rel⟩
    | _, _ => st
  | Op.moveAssignBetween i j =>
    if i = j then
      match st.cells[i]? with
      | some (some c) =>
        let r := Cell.moveAssignSelf c st.mem
        ⟨st.cells.set i (some r.1), r.2, st.rel⟩
      | _ => st
    else
      match st.cells[i]?, st.cells[j]? with
      | some (some ci), some (some cj) =>
        let r := Cell.moveAssign ci cj st.mem
        ⟨(st.cells.set i (some r.1)).set j (some r.2.1), r.2.2, st.rel⟩
      | _, _ => st
  | Op.resetNew i c v =>
    match st.cells[i]? with
    | some (some cc) =>
      let am := st.mem.alloc ⟨c, v⟩
      let r := cc.reset (some am.1) am.2
      ⟨st.cells.set i (some r.1), r.2, st.rel⟩
    | _ => st
  | Op.resetNull i =>
    match st.cells[i]? with
    | some (some cc) =>
      let r := cc.reset none st.mem
      ⟨st.cells.set i (some r.1), r.2, st.rel⟩
    | _ => st
  | Op.releaseKeep i =>
    match st.cells[i]? with
    | some (some cc) =>
      match cc.releaseOp st.mem with
      | some r =>
        ⟨st.cells.set i (some r.2.1), r.2.2,
          match r.1 with
          | some a => a :: st.rel
          | none => st.rel⟩
      | none => st
    | _ => st
  | Op.dropCell i =>
    match st.cells[i]? with
    | some (some c) => ⟨st.cells.set i none, c.destroy st.mem, st.rel⟩
    | _ => st

/-- Run a program from the empty state. -/
def run (cr : CTy → Val → Option Val) (d0 : Del) (ops : List (Op CTy Val)) :
    St CTy Val Del :=
  ops.foldl (step cr d0) ⟨[], Mem.empty, []⟩

/-- The lifetime invariant: every address below the allocation counter is
either live or freed (exactly once in total), and every live object is owned
by exactly one cell slot or has been released to the caller (exactly once in
total). -/
def Inv (st : St CTy Val Del) : Prop :=
  ∀ a : Nat,
    (liveCount st.mem a + freedCount st.mem a
      = if a < st.mem.next then 1 else 0)
    ∧ numOwners st.cells a + st.rel.count a = liveCount st.mem a

/-- A copy rule that always fails, modelling a class whose copy constructor
throws. -/
def failCopy : SliceTy → Unit → Option Unit :=
  fun _ _ => none

/-- A three-level hierarchy `ta` ← `tb` ← `tc` (base to most derived), used
to exhibit the converting constructor recording the source's declared type
`tb` while the stored object's dynamic type is `tc`. -/
inductive Tri : Type
  | ta
  | tb
  | tc
deriving DecidableEq

/-- Copy construction in the `Tri` hierarchy: stateless, always succeeds. -/
def triCopy : Tri → Unit → Option Unit :=
  fun _ _ => some ()

/-- A test program exercising construction, copy, move, converting
construction, copy- and move-self-assignment, move assignment, reset,
release, and destruction of every cell. -/
def prog7 : List (Op SliceTy Unit) :=
  [Op.mkFrom SliceTy.sbase SliceTy.sbase (),
   Op.copyFrom 0,
   Op.moveFrom 1,
   Op.assignFrom 0 2,
   Op.assignFrom 0 0,
   Op.moveAssignBetween 0 0,
   Op.moveAssignBetween 1 2,
   Op.resetNew 2 SliceTy.sder (),
   Op.convertFrom SliceTy.sbase 2,
   Op.releaseKeep 0,
   Op.resetNull 2,
   Op.dropCell 0,
   Op.dropCell 1,
   Op.dropCell 2,
   Op.dropCell 3]

/-- C2, counterexample: the claim asserts that for *both* copy constructors an
empty source yields an empty cell, but the converting constructor
(value_ptr.h line 107) runs `other.impl_->clone()` unconditionally, so on an
empty source it dereferences a null pointer: undefined behaviour, with no
defined resulting cell at all (modelled by `none`).  Concretely, converting
an empty `value_ptr<slice>` to `value_ptr<slice_base>`. -/
theorem C2_convert_empty_counterexample :
    Cell.convert sliceCopy SliceTy.sbase () (Cell.null SliceTy.sder ())
      Mem.empty = none := by
  rfl

/-- C2 (amended): the *same-type* copy constructor maps an empty source to an
empty cell; for a non-empty source both the same-type copy constructor and
the cross-type converting constructor produce an independent deep copy — the
copy's stored address is the fresh address `m.next`, different from the
source's address `a`, and the copied object's contents equal the source
object's contents (structural equality, given that the concrete type's copy
constructor is value-preserving, i.e. for value-comparable element types).
The converting constructor however requires a non-empty source. -/
theorem C2_copy_deep_independent
    (CTy Val Del : Type) (cr : CTy → Val → Option Val) (t t2 cty : CTy)
    (a : Nat) (o : Obj CTy Val) (del d0 : Del) (m : Mem CTy Val)
    (hl : m.lookup a = some o) (ha : a < m.next)
    (hc : cr cty o.val = some o.val) :
    (∀ (t' : CTy) (del' : Del) (m' : Mem CTy Val),
        Cell.copy cr (Cell.null t' del') m' = some (Cell.null t' del', m')) ∧
    (Cell.copy cr ⟨t, some ⟨cty, some a⟩, del⟩ m
        = some (⟨t, some ⟨cty, some m.next⟩, del⟩,
            ⟨m.next + 1, (m.next, ⟨cty, o.val⟩) :: m.live, m.freed⟩)
      ∧ m.next ≠ a) ∧
    (Cell.convert cr t2 d0 ⟨t, some ⟨cty, some a⟩, del⟩ m
        = some (⟨t2, some ⟨t, some m.next⟩, d0⟩,
            ⟨m.next + 1, (m.next, ⟨cty, o.val⟩) :: m.live, m.freed⟩)
      ∧ m.next ≠ a) := by
  refine ⟨fun t' del' m' => rfl, ⟨?_, by omega⟩, ⟨?_, by omega⟩⟩
  · simp [Cell.copy, Shim.clone, Mem.alloc, hl, hc]
  · simp [Cell.convert, Shim.clone, Mem.alloc, hl, hc]

/-- C2 witness: the amended theorem applied to a concrete one-object heap in
the fixes.cpp hierarchy. -/
theorem C2_copy_deep_independent_witness :
    Cell.copy sliceCopy
        ⟨SliceTy.sbase, some ⟨SliceTy.sder, some 0⟩, ()⟩
        ⟨1, [(0, ⟨SliceTy.sder, ()⟩)], []⟩
      = some (⟨SliceTy.sbase, some ⟨SliceTy.sder, some 1⟩, ()⟩,
          ⟨2, [(1, ⟨SliceTy.sder, ()⟩), (0, ⟨SliceTy.sder, ()⟩)], []⟩)
      ∧ (1 : Nat) ≠ 0 :=
  (C2_copy_deep_independent SliceTy Unit Unit sliceCopy SliceTy.sbase
    SliceTy.sbase SliceTy.sder 0 ⟨SliceTy.sder, ()⟩ () ()
    ⟨1, [(0, ⟨SliceTy.sder, ()⟩)], []⟩ (by decide) (by decide) (by decide)).2.1

/-- C3: a cell whose declared type is `t` but which was constructed from a raw
pointer whose static type is the derived concrete type `d` (pointing at a
freshly allocated object of dynamic type `d`) stores a shim instantiated at
`d`.  Copying the cell clones through that shim: the new object is produced
by `d`'s copy constructor, has dynamic type `d`, and is wrapped in a shim of
the same concrete type `d`, so a virtual call on the copy dispatches to `d` —
the derived behaviour, immediately after construction. -/
theorem C3_copy_preserves_concrete_type
    (CTy Val Del : Type) (cr : CTy → Val → Option Val) (obs : CTy → Val → Nat)
    (t d : CTy) (v v' : Val) (d0 : Del) (m : Mem CTy Val)
    (hc : cr d v = some v') :
    ∃ c2 m2,
      Cell.copy cr (Cell.fromRaw t d (some (m.alloc ⟨d, v⟩).1) d0)
          (m.alloc ⟨d, v⟩).2 = some (c2, m2)
      ∧ c2.impl = some ⟨d, some (m.alloc ⟨d, v⟩).2.next⟩
      ∧ m2.lookup ((m.alloc ⟨d, v⟩).2.next) = some ⟨d, v'⟩
      ∧ c2.callVirt obs m2 = some (obs d v') := by
  refine ⟨⟨t, some ⟨d, some (m.next + 1)⟩, d0⟩,
    ⟨m.next + 2, (m.next + 1, ⟨d, v'⟩) :: (m.next, ⟨d, v⟩) :: m.live, m.freed⟩,
    ?_, ?_, ?_, ?_⟩
  · simp [Cell.copy, Cell.fromRaw, Shim.clone, Mem.alloc, Mem.lookup, hc]
  · simp [Mem.alloc]
  · simp [Mem.alloc, Mem.lookup]
  · simp [Cell.callVirt, Mem.alloc, Mem.lookup]

/-- C3 witness: the theorem applied in the fixes.cpp hierarchy —
`value_ptr<slice_base> p(new slice()); auto p2 = p;` observes `'T'` (84). -/
theorem C3_copy_preserves_concrete_type_witness :
    ∃ c2 m2,
      Cell.copy sliceCopy
          (Cell.fromRaw SliceTy.sbase SliceTy.sder
            (some ((Mem.empty).alloc ⟨SliceTy.sder, ()⟩).1) ())
          ((Mem.empty).alloc ⟨SliceTy.sder, ()⟩).2 = some (c2, m2)
      ∧ c2.impl = some ⟨SliceTy.sder,
          some ((Mem.empty).alloc ⟨SliceTy.sder, ()⟩).2.next⟩
      ∧ m2.lookup (((Mem.empty : Mem SliceTy Unit)).alloc
          ⟨SliceTy.sder, ()⟩).2.next = some ⟨SliceTy.sder, ()⟩
      ∧ c2.callVirt sliceObs m2 = some 84 :=
  C3_copy_preserves_concrete_type SliceTy Unit Unit sliceCopy sliceObs
    SliceTy.sbase SliceTy.sder () () () Mem.empty (by decide)

/-- C4: `make_derived_val b d v` yields a cell declared as `b` owning a fresh
object of dynamic type `d`, with the shim capturing the concrete type `d`;
copying it clones via `d`'s copy constructor into a shim of the same concrete
type `d`.  In particular, in the test hierarchy (where `Derived`'s copy
constructor increments the value), the cell built from `Derived(22)` reports
22, its copy reports 23, and the original still reports 22. -/
theorem C4_make_derived_val
    (CTy Val Del : Type) (cr : CTy → Val → Option Val) (b d : CTy)
    (v v' : Val) (d0 : Del) (m : Mem CTy Val) (hc : cr d v = some v') :
    ((make_derived_val b d v d0 m).1.declTy = b
      ∧ (make_derived_val b d v d0 m).1.impl = some ⟨d, some m.next⟩
      ∧ (make_derived_val b d v d0 m).2.lookup m.next = some ⟨d, v⟩)
    ∧ (∃ c2 m2,
        Cell.copy cr (make_derived_val b d v d0 m).1
            (make_derived_val b d v d0 m).2 = some (c2, m2)
        ∧ c2.impl = some ⟨d, some (m.next + 1)⟩
        ∧ m2.lookup (m.next + 1) = some ⟨d, v'⟩)
    ∧ c4scenario = (some 22, some 23, some 22) := by
  refine ⟨⟨rfl, rfl, ?_⟩,
    ⟨⟨b, some ⟨d, some (m.next + 1)⟩, d0⟩,
      ⟨m.next + 2, (m.next + 1, ⟨d, v'⟩) :: (m.next, ⟨d, v⟩) :: m.live,
        m.freed⟩, ?_, rfl, ?_⟩, rfl⟩
  · simp [make_derived_val, Mem.alloc, Mem.lookup, Cell.fromRaw]
  · simp [Cell.copy, make_derived_val, Cell.fromRaw, Shim.clone, Mem.alloc,
      Mem.lookup, hc]
  · simp [Mem.alloc, Mem.lookup]

/-- C4 witness: the theorem applied to `make_derived_val<Base, Derived>(22)`
on the empty heap. -/
theorem C4_make_derived_val_witness :
    bdCopy BDTy.der 22 = some 23
    ∧ c4scenario = (some 22, some 23, some 22) :=
  ⟨by decide, (C4_make_derived_val BDTy Nat Unit bdCopy BDTy.base BDTy.der
    22 23 () Mem.empty (by decide)).2.2⟩

/-- C1: the claim is that `reset(p)` re-captures `p`'s concrete type in a
fresh shim so that a later copy keeps the new concrete behaviour.  The code
does not: `reset` wraps the pointer in `pmr_model<T>` at the *declared* type
(value_ptr.h line 227), so in the repository's own test fixes.cpp #15 the
cell observes `'T'` (84) after `reset(new slice())` but the copy observes the
sliced `'S'` (83), where the test requires `'T'`.  The code contradicts its
own test: a code bug. -/
theorem C1_reset_then_copy_slices :
    fixes15 = (some 84, some 83) ∧ (83 : Nat) ≠ 84 := by
  constructor
  · rfl
  · decide

/-- C5: copy-assignment is copy-construct-then-swap and atomic on failure —
if the parameter's copy construction (the clone) fails, the target and the
heap are untouched.  Copy-self-assignment leaves the cell non-empty owning a
fresh copy with the same logical value (for a value-preserving copy
constructor), and the old object is freed exactly once.  Move-self-assignment
leaves cell and heap completely unchanged, so the deletion policy is never
applied twice to the same object. -/
theorem C5_copy_assign_atomic_and_self_safe
    (CTy Val Del : Type) (cr1 cr2 : CTy → Val → Option Val)
    (a b : Cell CTy Del) (m : Mem CTy Val)
    (t cty : CTy) (ad : Nat) (o : Obj CTy Val) (del : Del) (m1 : Mem CTy Val)
    (hfail : Cell.copy cr1 b m = none)
    (hl : m1.lookup ad = some o) (ha : ad < m1.next)
    (hc : cr2 cty o.val = some o.val) :
    Cell.assign cr1 a b m = (false, a, m)
    ∧ ((Cell.assign cr2 ⟨t, some ⟨cty, some ad⟩, del⟩
          ⟨t, some ⟨cty, some ad⟩, del⟩ m1).1 = true
      ∧ (Cell.assign cr2 ⟨t, some ⟨cty, some ad⟩, del⟩
          ⟨t, some ⟨cty, some ad⟩, del⟩ m1).2.1
          = ⟨t, some ⟨cty, some m1.next⟩, del⟩
      ∧ (Cell.assign cr2 ⟨t, some ⟨cty, some ad⟩, del⟩
          ⟨t, some ⟨cty, some ad⟩, del⟩ m1).2.2.lookup m1.next
          = some ⟨cty, o.val⟩
      ∧ (Cell.assign cr2 ⟨t, some ⟨cty, some ad⟩, del⟩
          ⟨t, some ⟨cty, some ad⟩, del⟩ m1).2.2.freed = ad :: m1.freed)
    ∧ (∀ (c : Cell CTy Del) (m' : Mem CTy Val),
        Cell.moveAssignSelf c m' = (c, m')) := by
  have hne : (m1.next != ad) = true := by
    simp only [bne_iff_ne, ne_eq]
    omega
  have hres : Cell.assign cr2 ⟨t, some ⟨cty, some ad⟩, del⟩
      ⟨t, some ⟨cty, some ad⟩, del⟩ m1
      = (true, ⟨t, some ⟨cty, some m1.next⟩, del⟩,
          ⟨m1.next + 1,
            ((m1.next, ⟨cty, o.val⟩) :: m1.live).filter (fun e => e.1 != ad),
            ad :: m1.freed⟩) := by
    simp [Cell.assign, Cell.copy, Shim.clone, hl, hc, Mem.alloc, Cell.swapOp,
      Cell.destroy, Shim.destroy, Mem.free]
  refine ⟨by simp [Cell.assign, hfail], ⟨?_, ?_, ?_, ?_⟩, fun c m' => rfl⟩
  · rw [hres]
  · rw [hres]
  · rw [hres]
    simp [Mem.lookup, List.filter_cons, hne]
  · rw [hres]

/-- C5 witness: the theorem applied with a throwing copy rule for the failure
conjunct and the fixes.cpp hierarchy for self-assignment, on one-object
heaps. -/
theorem C5_copy_assign_atomic_and_self_safe_witness :
    Cell.assign failCopy (Cell.null SliceTy.sbase ())
        ⟨SliceTy.sbase, some ⟨SliceTy.sbase, some 0⟩, ()⟩
        ⟨1, [(0, ⟨SliceTy.sbase, ()⟩)], []⟩
      = (false, Cell.null SliceTy.sbase (), ⟨1, [(0, ⟨SliceTy.sbase, ()⟩)], []⟩)
    ∧ (Cell.assign sliceCopy
        ⟨SliceTy.sder, some ⟨SliceTy.sder, some 0⟩, ()⟩
        ⟨SliceTy.sder, some ⟨SliceTy.sder, some 0⟩, ()⟩
        ⟨1, [(0, ⟨SliceTy.sder, ()⟩)], []⟩).2.2.freed = 0 :: [] :=
  ⟨(C5_copy_assign_atomic_and_self_safe SliceTy Unit Unit failCopy sliceCopy
      (Cell.null SliceTy.sbase ())
      ⟨SliceTy.sbase, some ⟨SliceTy.sbase, some 0⟩, ()⟩
      ⟨1, [(0, ⟨SliceTy.sbase, ()⟩)], []⟩
      SliceTy.sder SliceTy.sder 0 ⟨SliceTy.sder, ()⟩ ()
      ⟨1, [(0, ⟨SliceTy.sder, ()⟩)], []⟩
      (by decide) (by decide) (by decide) (by decide)).1,
    (C5_copy_assign_atomic_and_self_safe SliceTy Unit Unit failCopy sliceCopy
      (Cell.null SliceTy.sbase ())
      ⟨SliceTy.sbase, some ⟨SliceTy.sbase, some 0⟩, ()⟩
      ⟨1, [(0, ⟨SliceTy.sbase, ()⟩)], []⟩
      SliceTy.sder SliceTy.sder 0 ⟨SliceTy.sder, ()⟩ ()
      ⟨1, [(0, ⟨SliceTy.sder, ()⟩)], []⟩
      (by decide) (by decide) (by decide) (by decide)).2.1.2.2.2⟩

/-- C6: move construction transfers the stored address unchanged and leaves
the source empty, and move assignment `b = move(a)` gives `b` exactly the
address `a` held, leaves `a` empty, and performs no allocation and no copy of
the stored object — the allocation counter of the heap does not change (the
only heap effect is freeing `b`'s old object). -/
theorem C6_move_transfers_no_alloc
    (CTy Val Del : Type) (a b : Cell CTy Del) (m : Mem CTy Val)
    (hne : a.toBool = true) :
    ((Cell.moveCtor a).1.rawGet = a.rawGet
      ∧ (Cell.moveCtor a).2.toBool = false)
    ∧ ((Cell.moveAssign b a m).1.rawGet = a.rawGet
      ∧ (Cell.moveAssign b a m).2.1.toBool = false
      ∧ (Cell.moveAssign b a m).2.2.next = m.next) := by
  refine ⟨⟨rfl, rfl⟩, rfl, rfl, ?_⟩
  cases hb : b.impl with
  | none => simp [Cell.moveAssign, Cell.moveCtor, Cell.swapOp, Cell.destroy,
      hb]
  | some s =>
    cases hp : s.ptr with
    | none => simp [Cell.moveAssign, Cell.moveCtor, Cell.swapOp, Cell.destroy,
        Shim.destroy, hb, hp]
    | some x => simp [Cell.moveAssign, Cell.moveCtor, Cell.swapOp,
        Cell.destroy, Shim.destroy, Mem.free, hb, hp]

/-- C6 witness: moving a one-object cell into a cell that owns another
object. -/
theorem C6_move_transfers_no_alloc_witness :
    ((Cell.moveCtor ⟨SliceTy.sbase, some ⟨SliceTy.sbase, some 0⟩,
        ()⟩).1.rawGet = (⟨SliceTy.sbase, some ⟨SliceTy.sbase, some 0⟩,
        ()⟩ : Cell SliceTy Unit).rawGet
      ∧ (Cell.moveCtor (⟨SliceTy.sbase, some ⟨SliceTy.sbase, some 0⟩,
          ()⟩ : Cell SliceTy Unit)).2.toBool = false)
    ∧ ((Cell.moveAssign ⟨SliceTy.sbase, some ⟨SliceTy.sbase, some 1⟩, ()⟩
          ⟨SliceTy.sbase, some ⟨SliceTy.sbase, some 0⟩, ()⟩
          (⟨2, [(0, ⟨SliceTy.sbase, ()⟩), (1, ⟨SliceTy.sbase, ()⟩)], []⟩ :
            Mem SliceTy Unit)).1.rawGet
          = (⟨SliceTy.sbase, some ⟨SliceTy.sbase, some 0⟩,
              ()⟩ : Cell SliceTy Unit).rawGet
      ∧ (Cell.moveAssign ⟨SliceTy.sbase, some ⟨SliceTy.sbase, some 1⟩, ()⟩
          ⟨SliceTy.sbase, some ⟨SliceTy.sbase, some 0⟩, ()⟩
          (⟨2, [(0, ⟨SliceTy.sbase, ()⟩), (1, ⟨SliceTy.sbase, ()⟩)], []⟩ :
            Mem SliceTy Unit)).2.1.toBool = false
      ∧ (Cell.moveAssign ⟨SliceTy.sbase, some ⟨SliceTy.sbase, some 1⟩, ()⟩
          ⟨SliceTy.sbase, some ⟨SliceTy.sbase, some 0⟩, ()⟩
          (⟨2, [(0, ⟨SliceTy.sbase, ()⟩), (1, ⟨SliceTy.sbase, ()⟩)], []⟩ :
            Mem SliceTy Unit)).2.2.next
          = (⟨2, [(0, ⟨SliceTy.sbase, ()⟩), (1, ⟨SliceTy.sbase, ()⟩)], []⟩ :
              Mem SliceTy Unit).next) :=
  C6_move_transfers_no_alloc SliceTy Unit Unit
    ⟨SliceTy.sbase, some ⟨SliceTy.sbase, some 0⟩, ()⟩
    ⟨SliceTy.sbase, some ⟨SliceTy.sbase, some 1⟩, ()⟩
    ⟨2, [(0, ⟨SliceTy.sbase, ()⟩), (1, ⟨SliceTy.sbase, ()⟩)], []⟩
    (by decide)

/-- C8: equality of cells is identity of stored addresses — two cells owning
structurally equal objects at distinct addresses compare unequal; ordering
delegates to `std::less` on the raw pointers, which is a strict total order;
and the hash of a cell is the hash of its raw stored address, so hashing is
consistent with identity equality. -/
theorem C8_identity_equality_order_hash
    (CTy Val Del : Type) (hf : Option Nat → Nat)
    (t1 t2 cty1 cty2 : CTy) (ad bd : Nat) (o : Obj CTy Val) (d1 d2 : Del)
    (m : Mem CTy Val) (c1 : Cell CTy Del) (p : Option Nat)
    (hla : m.lookup ad = some o) (hlb : m.lookup bd = some o) (hab : ad ≠ bd)
    (hp : c1.rawGet = some p) :
    Cell.eqCell ⟨t1, some ⟨cty1, some ad⟩, d1⟩ ⟨t2, some ⟨cty2, some bd⟩, d2⟩
        = some false
    ∧ (∀ (x y : Cell CTy Del) (px py : Option Nat),
        x.rawGet = some px → y.rawGet = some py →
        Cell.ltCell x y = some (ptrLt px py))
    ∧ (∀ q : Option Nat, ptrLt q q = false)
    ∧ (∀ q r s : Option Nat,
        ptrLt q r = true → ptrLt r s = true → ptrLt q s = true)
    ∧ (∀ q r : Option Nat, q ≠ r → ptrLt q r = true ∨ ptrLt r q = true)
    ∧ Cell.hashOf hf c1 = some (hf p) := by
  refine ⟨?_, ?_, ?_, ?_, ?_, ?_⟩
  · simp [Cell.eqCell, Cell.rawGet, hab]
  · intro x y px py hx hy
    simp [Cell.ltCell, hx, hy]
  · intro q
    cases q <;> simp [ptrLt]
  · intro q r s hqr hrs
    cases q <;> cases r <;> cases s <;> simp_all [ptrLt] <;> omega
  · intro q r hqr
    cases q <;> cases r <;> simp_all [ptrLt] <;> omega
  · simp [Cell.hashOf, hp]

/-- C8 witness: two cells over a heap holding equal-valued objects at
addresses 0 and 1. -/
theorem C8_identity_equality_order_hash_witness :
    Cell.eqCell ⟨SliceTy.sbase, some ⟨SliceTy.sbase, some 0⟩, ()⟩
        ⟨SliceTy.sbase, some ⟨SliceTy.sbase, some 1⟩, ()⟩ = some false
    ∧ Cell.hashOf (fun p => match p with | none => 0 | some x => x + 1)
        (⟨SliceTy.sbase, some ⟨SliceTy.sbase, some 0⟩, ()⟩ : Cell SliceTy Unit)
        = some 1 :=
  ⟨(C8_identity_equality_order_hash SliceTy Unit Unit
      (fun p => match p with | none => 0 | some x => x + 1)
      SliceTy.sbase SliceTy.sbase SliceTy.sbase SliceTy.sbase 0 1
      ⟨SliceTy.sbase, ()⟩ () ()
      ⟨2, [(0, ⟨SliceTy.sbase, ()⟩), (1, ⟨SliceTy.sbase, ()⟩)], []⟩
      ⟨SliceTy.sbase, some ⟨SliceTy.sbase, some 0⟩, ()⟩ (some 0)
      (by decide) (by decide) (by decide) (by decide)).1,
    (C8_identity_equality_order_hash SliceTy Unit Unit
      (fun p => match p with | none => 0 | some x => x + 1)
      SliceTy.sbase SliceTy.sbase SliceTy.sbase SliceTy.sbase 0 1
      ⟨SliceTy.sbase, ()⟩ () ()
      ⟨2, [(0, ⟨SliceTy.sbase, ()⟩), (1, ⟨SliceTy.sbase, ()⟩)], []⟩
      ⟨SliceTy.sbase, some ⟨SliceTy.sbase, some 0⟩, ()⟩ (some 0)
      (by decide) (by decide) (by decide) (by decide)).2.2.2.2.2⟩

/-- C9: every cell-to-cell comparison and every ordering comparison against
the null literal reads through the shim pointer via `get()`, so it is defined
exactly when the involved cells are non-empty; the hash adapter likewise.
Only `==`/`!=` against the null literal (boolean conversion, true for `==`
iff the cell is empty) and `operator bool` itself are total. -/
theorem C9_comparisons_need_nonempty (CTy Del : Type) :
    (∀ a b : Cell CTy Del,
      (Cell.eqCell a b).isSome = (a.toBool && b.toBool))
    ∧ (∀ a b : Cell CTy Del,
      (Cell.neCell a b).isSome = (a.toBool && b.toBool))
    ∧ (∀ a b : Cell CTy Del,
      (Cell.ltCell a b).isSome = (a.toBool && b.toBool))
    ∧ (∀ a b : Cell CTy Del,
      (Cell.leCell a b).isSome = (a.toBool && b.toBool))
    ∧ (∀ a b : Cell CTy Del,
      (Cell.gtCell a b).isSome = (a.toBool && b.toBool))
    ∧ (∀ a b : Cell CTy Del,
      (Cell.geCell a b).isSome = (a.toBool && b.toBool))
    ∧ (∀ a : Cell CTy Del, (Cell.ltNull a).isSome = a.toBool)
    ∧ (∀ a : Cell CTy Del, (Cell.nullLt a).isSome = a.toBool)
    ∧ (∀ a : Cell CTy Del, (Cell.leNull a).isSome = a.toBool)
    ∧ (∀ a : Cell CTy Del, (Cell.nullLe a).isSome = a.toBool)
    ∧ (∀ a : Cell CTy Del, (Cell.gtNull a).isSome = a.toBool)
    ∧ (∀ a : Cell CTy Del, (Cell.nullGt a).isSome = a.toBool)
    ∧ (∀ a : Cell CTy Del, (Cell.geNull a).isSome = a.toBool)
    ∧ (∀ a : Cell CTy Del, (Cell.nullGe a).isSome = a.toBool)
    ∧ (∀ (hf : Option Nat → Nat) (a : Cell CTy Del),
      (Cell.hashOf hf a).isSome = a.toBool)
    ∧ (∀ a : Cell CTy Del, Cell.eqNull a = !a.toBool)
    ∧ (∀ a : Cell CTy Del, Cell.neNull a = a.toBool) := by
  refine ⟨fun a b => ?_, fun a b => ?_, fun a b => ?_, fun a b => ?_,
    fun a b => ?_, fun a b => ?_, fun a => ?_, fun a => ?_, fun a => ?_,
    fun a => ?_, fun a => ?_, fun a => ?_, fun a => ?_, fun a => ?_,
    fun hf a => ?_, fun a => rfl, fun a => rfl⟩
  all_goals first
    | (obtain ⟨ta, ia, da⟩ := a
       obtain ⟨tb, ib, db⟩ := b
       cases ia <;> cases ib <;> rfl)
    | (obtain ⟨ta, ia, da⟩ := a
       cases ia <;> rfl)

/-- C10: the converting constructor wraps the cloned object in
`pmr_model<U>` where `U` is the *source cell's declared type* — not the
stored object's dynamic type — and leaves its deleter default-constructed
(`d0`); consequently a later copy of the constructed cell clones via `U`'s
copy operation and produces an object whose dynamic type is `U`. -/
theorem C10_convert_records_declared_type
    (CTy Val Del : Type) (cr : CTy → Val → Option Val) (t : CTy) (d0 : Del)
    (other : Cell CTy Del) (m : Mem CTy Val) (s : Shim CTy) (ad : Nat)
    (o : Obj CTy Val) (v1 v2 : Val)
    (hi : other.impl = some s) (hp : s.ptr = some ad)
    (hl : m.lookup ad = some o)
    (hc1 : cr s.cty o.val = some v1) (hc2 : cr other.declTy v1 = some v2) :
    Cell.convert cr t d0 other m
        = some (⟨t, some ⟨other.declTy, some m.next⟩, d0⟩,
            ⟨m.next + 1, (m.next, ⟨s.cty, v1⟩) :: m.live, m.freed⟩)
    ∧ Cell.copy cr ⟨t, some ⟨other.declTy, some m.next⟩, d0⟩
          ⟨m.next + 1, (m.next, ⟨s.cty, v1⟩) :: m.live, m.freed⟩
        = some (⟨t, some ⟨other.declTy, some (m.next + 1)⟩, d0⟩,
            ⟨m.next + 2,
              (m.next + 1, ⟨other.declTy, v2⟩) :: (m.next, ⟨s.cty, v1⟩) ::
                m.live, m.freed⟩)
    ∧ (⟨m.next + 2,
          (m.next + 1, ⟨other.declTy, v2⟩) :: (m.next, ⟨s.cty, v1⟩) ::
            m.live, m.freed⟩ : Mem CTy Val).lookup (m.next + 1)
        = some ⟨other.declTy, v2⟩ := by
  refine ⟨?_, ?_, ?_⟩
  · simp [Cell.convert, Shim.clone, hi, hp, hl, hc1, Mem.alloc]
  · simp [Cell.copy, Shim.clone, Mem.lookup, hc2, Mem.alloc]
  · simp [Mem.lookup]

/-- C10 witness: a source cell declared `tb` whose stored object has dynamic
type `tc`, converted to a cell declared `ta`: the new shim records `tb`, the
deleter is the default `()`, and a later copy produces an object of dynamic
type `tb` (not `tc`). -/
theorem C10_convert_records_declared_type_witness :
    Cell.convert triCopy Tri.ta () ⟨Tri.tb, some ⟨Tri.tc, some 0⟩, ()⟩
        ⟨1, [(0, ⟨Tri.tc, ()⟩)], []⟩
      = some (⟨Tri.ta, some ⟨Tri.tb, some 1⟩, ()⟩,
          ⟨2, [(1, ⟨Tri.tc, ()⟩), (0, ⟨Tri.tc, ()⟩)], []⟩)
    ∧ (⟨3, [(2, ⟨Tri.tb, ()⟩), (1, ⟨Tri.tc, ()⟩), (0, ⟨Tri.tc, ()⟩)],
        []⟩ : Mem Tri Unit).lookup 2 = some ⟨Tri.tb, ()⟩ :=
  ⟨(C10_convert_records_declared_type Tri Unit Unit triCopy Tri.ta ()
      ⟨Tri.tb, some ⟨Tri.tc, some 0⟩, ()⟩ ⟨1, [(0, ⟨Tri.tc, ()⟩)], []⟩
      ⟨Tri.tc, some 0⟩ 0 ⟨Tri.tc, ()⟩ () ()
      rfl rfl (by decide) (by decide) (by decide)).1,
    (C10_convert_records_declared_type Tri Unit Unit triCopy Tri.ta ()
      ⟨Tri.tb, some ⟨Tri.tc, some 0⟩, ()⟩ ⟨1, [(0, ⟨Tri.tc, ()⟩)], []⟩
      ⟨Tri.tc, some 0⟩ 0 ⟨Tri.tc, ()⟩ () ()
      rfl rfl (by decide) (by decide) (by decide)).2.2⟩

/-! Auxiliary counting lemmas for the lifetime invariant. -/

theorem countP_set_eq {α : Type} (p : α → Bool) (l : List α) (i : Nat)
    (x y : α) (h : l[i]? = some y) :
    (l.set i x).countP p + (if p y then 1 else 0)
      = l.countP p + (if p x then 1 else 0) := by
  induction l generalizing i with
  | nil => simp at h
  | cons hd tl ih =>
    cases i with
    | zero =>
      simp only [List.getElem?_cons_zero, Option.some.injEq] at h
      subst h
      simp [List.countP_cons]
      omega
    | succ n =>
      simp only [List.getElem?_cons_succ] at h
      have := ih n h
      simp only [List.set_cons_succ, List.countP_cons]
      omega

theorem set_get_self {α : Type} (l : List α) (i : Nat) (x : α)
    (h : l[i]? = some x) : l.set i x = l := by
  induction l generalizing i with
  | nil => rfl
  | cons hd tl ih =>
    cases i with
    | zero =>
      simp only [List.getElem?_cons_zero, Option.some.injEq] at h
      subst h
      rfl
    | succ n =>
      simp only [List.getElem?_cons_succ] at h
      simp [ih n h]

theorem liveCount_alloc (m : Mem CTy Val) (o : Obj CTy Val) (a : Nat) :
    liveCount (m.alloc o).2 a
      = liveCount m a + (if m.next = a then 1 else 0) := by
  simp [liveCount, Mem.alloc, List.countP_cons]

theorem freedCount_alloc (m : Mem CTy Val) (o : Obj CTy Val) (a : Nat) :
    freedCount (m.alloc o).2 a = freedCount m a := rfl

theorem countP_filter_key (a b : Nat) (l : List (Nat × Obj CTy Val)) :
    (l.filter (fun e => e.1 != b)).countP (fun e => e.1 == a)
      = if a = b then 0 else l.countP (fun e => e.1 == a) := by
  induction l with
  | nil => simp
  | cons x l ih =>
    by_cases hab : a = b <;> by_cases hxb : x.1 = b <;>
      simp [List.filter_cons, List.countP_cons, hxb, hab, ih] <;>
      omega

theorem liveCount_free (m : Mem CTy Val) (b a : Nat) :
    liveCount (m.free b) a = if a = b then 0 else liveCount m a := by
  simp [liveCount, Mem.free, countP_filter_key]

theorem freedCount_free (m : Mem CTy Val) (b a : Nat) :
    freedCount (m.free b) a = freedCount m a + if b = a then 1 else 0 := by
  simp [freedCount, Mem.free, List.count_cons]

theorem numOwners_append (cs : List (Option (Cell CTy Del)))
    (x : Option (Cell CTy Del)) (a : Nat) :
    numOwners (cs ++ [x]) a
      = numOwners cs a + (if ownsB a x then 1 else 0) := by
  simp [numOwners, List.countP_append, List.countP_cons]

theorem numOwners_set (cs : List (Option (Cell CTy Del))) (i : Nat)
    (x y : Option (Cell CTy Del)) (h : cs[i]? = some y) (a : Nat) :
    numOwners (cs.set i x) a + (if ownsB a y then 1 else 0)
      = numOwners cs a + (if ownsB a x then 1 else 0) :=
  countP_set_eq (ownsB a) cs i x y h

theorem destroy_eq (c : Cell CTy Del) (m : Mem CTy Val) :
    Cell.destroy c m
      = match c.ownedPtr with
        | some ao => m.free ao
        | none => m := by
  cases hi : c.impl with
  | none => simp [Cell.destroy, Cell.ownedPtr, hi]
  | some s =>
    cases hp : s.ptr <;>
      simp [Cell.destroy, Cell.ownedPtr, Shim.destroy, hi, hp]

theorem owner_of_slot (st : St CTy Val Del) (i : Nat) (c : Cell CTy Del)
    (ao : Nat) (hg : st.cells[i]? = some (some c))
    (hp : c.ownedPtr = some ao) : 0 < numOwners st.cells ao := by
  refine List.countP_pos.mpr ⟨some c, List.getElem?_mem hg, ?_⟩
  simp [ownsB, entryPtr, hp]

theorem owner_facts (st : St CTy Val Del) (hInv : Inv st) (i : Nat)
    (c : Cell CTy Del) (ao : Nat) (hg : st.cells[i]? = some (some c))
    (hp : c.ownedPtr = some ao) :
    numOwners st.cells ao = 1 ∧ st.rel.count ao = 0
    ∧ liveCount st.mem ao = 1 ∧ freedCount st.mem ao = 0
    ∧ ao < st.mem.next := by
  have h1 := (hInv ao).1
  have h2 := (hInv ao).2
  have h3 := owner_of_slot st i c ao hg hp
  by_cases hlt : ao < st.mem.next <;> simp [hlt] at h1 <;> omega

theorem fresh_facts (st : St CTy Val Del) (hInv : Inv st) :
    liveCount st.mem st.mem.next = 0 ∧ freedCount st.mem st.mem.next = 0
    ∧ numOwners st.cells st.mem.next = 0
    ∧ st.rel.count st.mem.next = 0 := by
  have h1 := (hInv st.mem.next).1
  have h2 := (hInv st.mem.next).2
  simp at h1
  omega

/-! Invariant preservation, one lemma per shape of state change. -/

theorem inv_append_fresh (cells : List (Option (Cell CTy Del)))
    (m : Mem CTy Val) (rel : List Nat) (x : Option (Cell CTy Del))
    (o : Obj CTy Val) (hInv : Inv ⟨cells, m, rel⟩)
    (hx : entryPtr x = some m.next) :
    Inv ⟨cells ++ [x], (m.alloc o).2, rel⟩ := by
  intro a
  have h1 : liveCount m a + freedCount m a = if a < m.next then 1 else 0 :=
    (hInv a).1
  have h2 : numOwners cells a + rel.count a = liveCount m a := (hInv a).2
  obtain ⟨hf1, hf2, hf3, hf4⟩ :
      liveCount m m.next = 0 ∧ freedCount m m.next = 0
      ∧ numOwners cells m.next = 0 ∧ rel.count m.next = 0 :=
    fresh_facts ⟨cells, m, rel⟩ hInv
  clear hInv
  constructor
  · show liveCount (m.alloc o).2 a + freedCount (m.alloc o).2 a
      = if a < (m.alloc o).2.next then 1 else 0
    rw [liveCount_alloc, freedCount_alloc,
      show (m.alloc o).2.next = m.next + 1 from rfl]
    by_cases hna : m.next = a
    · subst hna
      split_ifs at h1 ⊢ <;> omega
    · split_ifs at h1 ⊢ <;> omega
  · show numOwners (cells ++ [x]) a + rel.count a = liveCount (m.alloc o).2 a
    rw [numOwners_append, liveCount_alloc]
    simp only [ownsB, hx, beq_iff_eq]
    by_cases hna : m.next = a
    · subst hna
      split_ifs at h1 ⊢ <;> omega
    · split_ifs at h1 ⊢ <;> omega

theorem inv_append_inert (cells : List (Option (Cell CTy Del)))
    (m : Mem CTy Val) (rel : List Nat) (x : Option (Cell CTy Del))
    (hInv : Inv ⟨cells, m, rel⟩) (hx : entryPtr x = none) :
    Inv ⟨cells ++ [x], m, rel⟩ := by
  intro a
  have h1 : liveCount m a + freedCount m a = if a < m.next then 1 else 0 :=
    (hInv a).1
  have h2 : numOwners cells a + rel.count a = liveCount m a := (hInv a).2
  refine ⟨h1, ?_⟩
  show numOwners (cells ++ [x]) a + rel.count a = liveCount m a
  rw [numOwners_append]
  simp only [ownsB, hx, Bool.false_eq_true, if_false]
  omega

theorem inv_move_slot (cells : List (Option (Cell CTy Del)))
    (m : Mem CTy Val) (rel : List Nat) (i : Nat) (c c1 c2 : Cell CTy Del)
    (hg : cells[i]? = some (some c)) (hInv : Inv ⟨cells, m, rel⟩)
    (h1p : c1.ownedPtr = none) (h2p : c2.ownedPtr = c.ownedPtr) :
    Inv ⟨(cells.set i (some c1)) ++ [some c2], m, rel⟩ := by
  intro a
  have h1 : liveCount m a + freedCount m a = if a < m.next then 1 else 0 :=
    (hInv a).1
  have h2 : numOwners cells a + rel.count a = liveCount m a := (hInv a).2
  have hset := numOwners_set cells i (some c1) (some c) hg a
  clear hInv
  refine ⟨h1, ?_⟩
  show numOwners ((cells.set i (some c1)) ++ [some c2]) a + rel.count a
      = liveCount m a
  rw [numOwners_append]
  cases hcp : c.ownedPtr with
  | none =>
    simp only [ownsB, entryPtr, h1p, h2p, hcp, Bool.false_eq_true, if_false]
      at hset ⊢
    omega
  | some ao =>
    simp only [ownsB, entryPtr, h1p, h2p, hcp, beq_iff_eq,
      Bool.false_eq_true, if_false] at hset ⊢
    split_ifs at hset ⊢ <;> omega

theorem inv_set_fresh_free (cells : List (Option (Cell CTy Del)))
    (m : Mem CTy Val) (rel : List Nat) (i : Nat) (c cNew : Cell CTy Del)
    (ao : Nat) (o : Obj CTy Val) (hg : cells[i]? = some (some c))
    (hInv : Inv ⟨cells, m, rel⟩) (hold : c.ownedPtr = some ao)
    (hnew : cNew.ownedPtr = some m.next) :
    Inv ⟨cells.set i (some cNew), ((m.alloc o).2).free ao, rel⟩ := by
  intro a
  have h1 : liveCount m a + freedCount m a = if a < m.next then 1 else 0 :=
    (hInv a).1
  have h2 : numOwners cells a + rel.count a = liveCount m a := (hInv a).2
  obtain ⟨ho1, ho2, ho3, ho4, ho5⟩ :
      numOwners cells ao = 1 ∧ rel.count ao = 0 ∧ liveCount m ao = 1
      ∧ freedCount m ao = 0 ∧ ao < m.next :=
    owner_facts ⟨cells, m, rel⟩ hInv i c ao hg hold
  obtain ⟨hf1, hf2, hf3, hf4⟩ :
      liveCount m m.next = 0 ∧ freedCount m m.next = 0
      ∧ numOwners cells m.next = 0 ∧ rel.count m.next = 0 :=
    fresh_facts ⟨cells, m, rel⟩ hInv
  have hset := numOwners_set cells i (some cNew) (some c) hg a
  simp only [ownsB, entryPtr, hold, hnew, beq_iff_eq] at hset
  clear hInv
  constructor
  · show liveCount (((m.alloc o).2).free ao) a
        + freedCount (((m.alloc o).2).free ao) a
      = if a < (((m.alloc o).2).free ao).next then 1 else 0
    rw [liveCount_free, freedCount_free, liveCount_alloc, freedCount_alloc,
      show (((m.alloc o).2).free ao).next = m.next + 1 from rfl]
    by_cases haa : a = ao
    · subst haa
      split_ifs at h1 hset ⊢ <;> omega
    · by_cases hna : m.next = a
      · subst hna
        split_ifs at h1 hset ⊢ <;> omega
      · split_ifs at h1 hset ⊢ <;> omega
  · show numOwners (cells.set i (some cNew)) a + rel.count a
      = liveCount (((m.alloc o).2).free ao) a
    rw [liveCount_free, liveCount_alloc]
    by_cases haa : a = ao
    · subst haa
      split_ifs at h1 hset ⊢ <;> omega
    · by_cases hna : m.next = a
      · subst hna
        split_ifs at h1 hset ⊢ <;> omega
      · split_ifs at h1 hset ⊢ <;> omega

theorem inv_set_fresh_nofree (cells : List (Option (Cell CTy Del)))
    (m : Mem CTy Val) (rel : List Nat) (i : Nat) (c cNew : Cell CTy Del)
    (o : Obj CTy Val) (hg : cells[i]? = some (some c))
    (hInv : Inv ⟨cells, m, rel⟩) (hold : c.ownedPtr = none)
    (hnew : cNew.ownedPtr = some m.next) :
    Inv ⟨cells.set i (some cNew), (m.alloc o).2, rel⟩ := by
  intro a
  have h1 : liveCount m a + freedCount m a = if a < m.next then 1 else 0 :=
    (hInv a).1
  have h2 : numOwners cells a + rel.count a = liveCount m a := (hInv a).2
  obtain ⟨hf1, hf2, hf3, hf4⟩ :
      liveCount m m.next = 0 ∧ freedCount m m.next = 0
      ∧ numOwners cells m.next = 0 ∧ rel.count m.next = 0 :=
    fresh_facts ⟨cells, m, rel⟩ hInv
  have hset := numOwners_set cells i (some cNew) (some c) hg a
  simp only [ownsB, entryPtr, hold, hnew, beq_iff_eq, Bool.false_eq_true,
    if_false] at hset
  clear hInv
  constructor
  · show liveCount (m.alloc o).2 a + freedCount (m.alloc o).2 a
      = if a < (m.alloc o).2.next then 1 else 0
    rw [liveCount_alloc, freedCount_alloc,
      show (m.alloc o).2.next = m.next + 1 from rfl]
    by_cases hna : m.next = a
    · subst hna
      split_ifs at h1 hset ⊢ <;> omega
    · split_ifs at h1 hset ⊢ <;> omega
  · show numOwners (cells.set i (some cNew)) a + rel.count a
      = liveCount (m.alloc o).2 a
    rw [liveCount_alloc]
    by_cases hna : m.next = a
    · subst hna
      split_ifs at h1 hset ⊢ <;> omega
    · split_ifs at h1 hset ⊢ <;> omega

theorem inv_set_drop (cells : List (Option (Cell CTy Del)))
    (m : Mem CTy Val) (rel : List Nat) (i : Nat) (c : Cell CTy Del)
    (x : Option (Cell CTy Del)) (ao : Nat)
    (hg : cells[i]? = some (some c)) (hInv : Inv ⟨cells, m, rel⟩)
    (hold : c.ownedPtr = some ao) (hx : entryPtr x = none) :
    Inv ⟨cells.set i x, m.free ao, rel⟩ := by
  intro a
  have h1 : liveCount m a + freedCount m a = if a < m.next then 1 else 0 :=
    (hInv a).1
  have h2 : numOwners cells a + rel.count a = liveCount m a := (hInv a).2
  obtain ⟨ho1, ho2, ho3, ho4, ho5⟩ :
      numOwners cells ao = 1 ∧ rel.count ao = 0 ∧ liveCount m ao = 1
      ∧ freedCount m ao = 0 ∧ ao < m.next :=
    owner_facts ⟨cells, m, rel⟩ hInv i c ao hg hold
  have hset := numOwners_set cells i x (some c) hg a
  simp only [ownsB, hx, Bool.false_eq_true, if_false] at hset
  simp only [entryPtr, hold, beq_iff_eq] at hset
  clear hInv
  constructor
  · show liveCount (m.free ao) a + freedCount (m.free ao) a
      = if a < (m.free ao).next then 1 else 0
    rw [liveCount_free, freedCount_free,
      show (m.free ao).next = m.next from rfl]
    by_cases haa : a = ao
    · subst haa
      split_ifs at h1 hset ⊢ <;> omega
    · split_ifs at h1 hset ⊢ <;> omega
  · show numOwners (cells.set i x) a + rel.count a = liveCount (m.free ao) a
    rw [liveCount_free]
    by_cases haa : a = ao
    · subst haa
      split_ifs at h1 hset ⊢ <;> omega
    · split_ifs at h1 hset ⊢ <;> omega

theorem inv_set_inert (cells : List (Option (Cell CTy Del)))
    (m : Mem CTy Val) (rel : List Nat) (i : Nat) (c : Cell CTy Del)
    (x : Option (Cell CTy Del)) (hg : cells[i]? = some (some c))
    (hInv : Inv ⟨cells, m, rel⟩) (hold : c.ownedPtr = none)
    (hx : entryPtr x = none) :
    Inv ⟨cells.set i x, m, rel⟩ := by
  intro a
  have h1 : liveCount m a + freedCount m a = if a < m.next then 1 else 0 :=
    (hInv a).1
  have h2 : numOwners cells a + rel.count a = liveCount m a := (hInv a).2
  have hset := numOwners_set cells i x (some c) hg a
  simp only [ownsB, hx, Bool.false_eq_true, if_false] at hset
  simp only [entryPtr, hold, Bool.false_eq_true, if_false] at hset
  refine ⟨h1, ?_⟩
  show numOwners (cells.set i x) a + rel.count a = liveCount m a
  omega

theorem inv_release_slot (cells : List (Option (Cell CTy Del)))
    (m : Mem CTy Val) (rel : List Nat) (i : Nat) (c : Cell CTy Del)
    (x : Option (Cell CTy Del)) (ao : Nat)
    (hg : cells[i]? = some (some c)) (hInv : Inv ⟨cells, m, rel⟩)
    (hold : c.ownedPtr = some ao) (hx : entryPtr x = none) :
    Inv ⟨cells.set i x, m, ao :: rel⟩ := by
  intro a
  have h1 : liveCount m a + freedCount m a = if a < m.next then 1 else 0 :=
    (hInv a).1
  have h2 : numOwners cells a + rel.count a = liveCount m a := (hInv a).2
  have hset := numOwners_set cells i x (some c) hg a
  simp only [ownsB, hx, Bool.false_eq_true, if_false] at hset
  simp only [entryPtr, hold, beq_iff_eq] at hset
  clear hInv
  refine ⟨h1, ?_⟩
  show numOwners (cells.set i x) a + (ao :: rel).count a = liveCount m a
  rw [List.count_cons]
  simp only [beq_iff_eq]
  by_cases haa : a = ao
  · subst haa
    split_ifs at hset ⊢ <;> omega
  · split_ifs at hset ⊢ <;> omega

theorem inv_move_assign_free (cells : List (Option (Cell CTy Del)))
    (m : Mem CTy Val) (rel : List Nat) (i j : Nat)
    (ci cj bNew cjNew : Cell CTy Del) (ao : Nat) (hij : i ≠ j)
    (hgi : cells[i]? = some (some ci))
    (hgj : cells[j]? = some (some cj)) (hInv : Inv ⟨cells, m, rel⟩)
    (hci : ci.ownedPtr = some ao) (hb : bNew.ownedPtr = cj.ownedPtr)
    (hcj : cjNew.ownedPtr = none) :
    Inv ⟨(cells.set i (some bNew)).set j (some cjNew), m.free ao, rel⟩ := by
  intro a
  have h1 : liveCount m a + freedCount m a = if a < m.next then 1 else 0 :=
    (hInv a).1
  have h2 : numOwners cells a + rel.count a = liveCount m a := (hInv a).2
  obtain ⟨ho1, ho2, ho3, ho4, ho5⟩ :
      numOwners cells ao = 1 ∧ rel.count ao = 0 ∧ liveCount m ao = 1
      ∧ freedCount m ao = 0 ∧ ao < m.next :=
    owner_facts ⟨cells, m, rel⟩ hInv i ci ao hgi hci
  have hset1 := numOwners_set cells i (some bNew) (some ci) hgi a
  have hgj2 : (cells.set i (some bNew))[j]? = some (some cj) := by
    rw [List.getElem?_set_ne hij]
    exact hgj
  have hset2 :=
    numOwners_set (cells.set i (some bNew)) j (some cjNew) (some cj) hgj2 a
  simp only [ownsB, entryPtr, hci, hb, hcj, beq_iff_eq, Bool.false_eq_true,
    if_false] at hset1 hset2
  clear hInv
  constructor
  · show liveCount (m.free ao) a + freedCount (m.free ao) a
      = if a < (m.free ao).next then 1 else 0
    rw [liveCount_free, freedCount_free,
      show (m.free ao).next = m.next from rfl]
    by_cases haa : a = ao
    · subst haa
      split_ifs at h1 ⊢ <;> omega
    · split_ifs at h1 ⊢ <;> omega
  · show numOwners ((cells.set i (some bNew)).set j (some cjNew)) a
        + rel.count a = liveCount (m.free ao) a
    rw [liveCount_free]
    cases hcjp : cj.ownedPtr with
    | none =>
      simp only [hcjp, Bool.false_eq_true, if_false] at hset1 hset2
      by_cases haa : a = ao
      · subst haa
        split_ifs at hset1 hset2 ⊢ <;> omega
      · split_ifs at hset1 hset2 ⊢ <;> omega
    | some bo =>
      simp only [hcjp, beq_iff_eq] at hset1 hset2
      by_cases haa : a = ao
      · subst haa
        split_ifs at hset1 hset2 ⊢ <;> omega
      · split_ifs at hset1 hset2 ⊢ <;> omega

theorem inv_move_assign_nofree (cells : List (Option (Cell CTy Del)))
    (m : Mem CTy Val) (rel : List Nat) (i j : Nat)
    (ci cj bNew cjNew : Cell CTy Del) (hij : i ≠ j)
    (hgi : cells[i]? = some (some ci))
    (hgj : cells[j]? = some (some cj)) (hInv : Inv ⟨cells, m, rel⟩)
    (hci : ci.ownedPtr = none) (hb : bNew.ownedPtr = cj.ownedPtr)
    (hcj : cjNew.ownedPtr = none) :
    Inv ⟨(cells.set i (some bNew)).set j (some cjNew), m, rel⟩ := by
  intro a
  have h1 : liveCount m a + freedCount m a = if a < m.next then 1 else 0 :=
    (hInv a).1
  have h2 : numOwners cells a + rel.count a = liveCount m a := (hInv a).2
  have hset1 := numOwners_set cells i (some bNew) (some ci) hgi a
  have hgj2 : (cells.set i (some bNew))[j]? = some (some cj) := by
    rw [List.getElem?_set_ne hij]
    exact hgj
  have hset2 :=
    numOwners_set (cells.set i (some bNew)) j (some cjNew) (some cj) hgj2 a
  simp only [ownsB, entryPtr, hci, hb, hcj, beq_iff_eq, Bool.false_eq_true,
    if_false] at hset1 hset2
  clear hInv
  refine ⟨h1, ?_⟩
  show numOwners ((cells.set i (some bNew)).set j (some cjNew)) a
      + rel.count a = liveCount m a
  cases hcjp : cj.ownedPtr with
  | none =>
    simp only [hcjp, Bool.false_eq_true, if_false] at hset1 hset2
    omega
  | some bo =>
    simp only [hcjp, beq_iff_eq] at hset1 hset2
    split_ifs at hset1 hset2 ⊢ <;> omega

/-! Shapes of the results of the fallible operations, and step preservation. -/

theorem copy_shapes (cr : CTy → Val → Option Val) (c : Cell CTy Del)
    (m : Mem CTy Val) (r : Cell CTy Del × Mem CTy Val)
    (h : Cell.copy cr c m = some r) :
    (r.1.ownedPtr = none ∧ r.2 = m)
    ∨ (∃ o : Obj CTy Val, r.1.ownedPtr = some m.next ∧ r.2 = (m.alloc o).2) := by
  cases hi : c.impl with
  | none =>
    simp only [Cell.copy, hi, Option.some.injEq] at h
    subst h
    exact Or.inl ⟨rfl, rfl⟩
  | some s =>
    cases hp : s.ptr with
    | none => simp [Cell.copy, Shim.clone, hi, hp] at h
    | some a =>
      cases hl : m.lookup a with
      | none => simp [Cell.copy, Shim.clone, hi, hp, hl] at h
      | some o =>
        cases hc : cr s.cty o.val with
        | none => simp [Cell.copy, Shim.clone, hi, hp, hl, hc] at h
        | some v =>
          simp only [Cell.copy, Shim.clone, hi, hp, hl, hc,
            Option.some.injEq] at h
          subst h
          exact Or.inr ⟨⟨s.cty, v⟩, rfl, rfl⟩

theorem convert_shapes (cr : CTy → Val → Option Val) (t : CTy) (d0 : Del)
    (c : Cell CTy Del) (m : Mem CTy Val) (r : Cell CTy Del × Mem CTy Val)
    (h : Cell.convert cr t d0 c m = some r) :
    ∃ o : Obj CTy Val, r.1.ownedPtr = some m.next ∧ r.2 = (m.alloc o).2 := by
  cases hi : c.impl with
  | none => simp [Cell.convert, hi] at h
  | some s =>
    cases hp : s.ptr with
    | none => simp [Cell.convert, Shim.clone, hi, hp] at h
    | some a =>
      cases hl : m.lookup a with
      | none => simp [Cell.convert, Shim.clone, hi, hp, hl] at h
      | some o =>
        cases hc : cr s.cty o.val with
        | none => simp [Cell.convert, Shim.clone, hi, hp, hl, hc] at h
        | some v =>
          simp only [Cell.convert, Shim.clone, hi, hp, hl, hc,
            Option.some.injEq] at h
          subst h
          exact ⟨⟨s.cty, v⟩, rfl, rfl⟩

theorem destroy_of_owned_some (c : Cell CTy Del) (m : Mem CTy Val) (ao : Nat)
    (h : c.ownedPtr = some ao) : Cell.destroy c m = m.free ao := by
  cases hi : c.impl with
  | none => simp [Cell.ownedPtr, hi] at h
  | some s =>
    simp only [Cell.ownedPtr, hi] at h
    simp [Cell.destroy, Shim.destroy, hi, h]

theorem destroy_of_owned_none (c : Cell CTy Del) (m : Mem CTy Val)
    (h : c.ownedPtr = none) : Cell.destroy c m = m := by
  cases hi : c.impl with
  | none => simp [Cell.destroy, hi]
  | some s =>
    simp only [Cell.ownedPtr, hi] at h
    simp [Cell.destroy, Shim.destroy, hi, h]

theorem inv_step (cr : CTy → Val → Option Val) (d0 : Del)
    (st : St CTy Val Del) (op : Op CTy Val) (hInv : Inv st) :
    Inv (step cr d0 st op) := by
  obtain ⟨cells, m, rel⟩ := st
  cases op with
  | mkFrom t u v =>
    exact inv_append_fresh cells m rel
      (some (Cell.fromRaw t u (some (m.alloc ⟨u, v⟩).1) d0)) ⟨u, v⟩ hInv rfl
  | copyFrom i =>
    cases hg : cells[i]? with
    | none => simpa [step, hg] using hInv
    | some oc =>
      cases oc with
      | none => simpa [step, hg] using hInv
      | some c =>
        cases hc : Cell.copy cr c m with
        | none => simpa [step, hg, hc] using hInv
        | some r =>
          have hstep : step cr d0 ⟨cells, m, rel⟩ (Op.copyFrom i)
              = ⟨cells ++ [some r.1], r.2, rel⟩ := by
            simp [step, hg, hc]
          rw [hstep]
          rcases copy_shapes cr c m r hc with ⟨hp, hm⟩ | ⟨o, hp, hm⟩
          · rw [hm]
            exact inv_append_inert cells m rel (some r.1) hInv hp
          · rw [hm]
            exact inv_append_fresh cells m rel (some r.1) o hInv hp
  | convertFrom t i =>
    cases hg : cells[i]? with
    | none => simpa [step, hg] using hInv
    | some oc =>
      cases oc with
      | none => simpa [step, hg] using hInv
      | some c =>
        cases hc : Cell.convert cr t d0 c m with
        | none => simpa [step, hg, hc] using hInv
        | some r =>
          have hstep : step cr d0 ⟨cells, m, rel⟩ (Op.convertFrom t i)
              = ⟨cells ++ [some r.1], r.2, rel⟩ := by
            simp [step, hg, hc]
          rw [hstep]
          obtain ⟨o, hp, hm⟩ := convert_shapes cr t d0 c m r hc
          rw [hm]
          exact inv_append_fresh cells m rel (some r.1) o hInv hp
  | moveFrom i =>
    cases hg : cells[i]? with
    | none => simpa [step, hg] using hInv
    | some oc =>
      cases oc with
      | none => simpa [step, hg] using hInv
      | some c =>
        have hstep : step cr d0 ⟨cells, m, rel⟩ (Op.moveFrom i)
            = ⟨(cells.set i (some ⟨c.declTy, none, c.del⟩))
                ++ [some ⟨c.declTy, c.impl, c.del⟩], m, rel⟩ := by
          simp [step, hg, Cell.moveCtor]
        rw [hstep]
        exact inv_move_slot cells m rel i c ⟨c.declTy, none, c.del⟩
          ⟨c.declTy, c.impl, c.del⟩ hg hInv rfl rfl
  | assignFrom i j =>
    cases hgi : cells[i]? with
    | none => simpa [step, hgi] using hInv
    | some oci =>
      cases oci with
      | none => simpa [step, hgi] using hInv
      | some ci =>
        cases hgj : cells[j]? with
        | none => simpa [step, hgi, hgj] using hInv
        | some ocj =>
          cases ocj with
          | none => simpa [step, hgi, hgj] using hInv
          | some cj =>
            cases hc : Cell.copy cr cj m with
            | none =>
              have hstep : step cr d0 ⟨cells, m, rel⟩ (Op.assignFrom i j)
                  = ⟨cells.set i (some ci), m, rel⟩ := by
                simp [step, hgi, hgj, Cell.assign, hc]
              rw [hstep, set_get_self cells i (some ci) hgi]
              exact hInv
            | some pr =>
              obtain ⟨tmp, m2⟩ := pr
              have hstep : step cr d0 ⟨cells, m, rel⟩ (Op.assignFrom i j)
                  = ⟨cells.set i (some ⟨ci.declTy, tmp.impl, tmp.del⟩),
                      Cell.destroy ⟨tmp.declTy, ci.impl, ci.del⟩ m2, rel⟩ := by
                simp [step, hgi, hgj, Cell.assign, hc, Cell.swapOp]
              rw [hstep]
              rcases copy_shapes cr cj m (tmp, m2) hc with ⟨hp, hm⟩ |
                ⟨o, hp, hm⟩
              · rw [show m2 = m from hm]
                cases hci : ci.ownedPtr with
                | some ao =>
                  rw [destroy_of_owned_some ⟨tmp.declTy, ci.impl, ci.del⟩
                    m ao hci]
                  exact inv_set_drop cells m rel i ci
                    (some ⟨ci.declTy, tmp.impl, tmp.del⟩) ao hgi hInv hci hp
                | none =>
                  rw [destroy_of_owned_none ⟨tmp.declTy, ci.impl, ci.del⟩
                    m hci]
                  exact inv_set_inert cells m rel i ci
                    (some ⟨ci.declTy, tmp.impl, tmp.del⟩) hgi hInv hci hp
              · rw [show m2 = (m.alloc o).2 from hm]
                cases hci : ci.ownedPtr with
                | some ao =>
                  rw [destroy_of_owned_some ⟨tmp.declTy, ci.impl, ci.del⟩
                    (m.alloc o).2 ao hci]
                  exact inv_set_fresh_free cells m rel i ci
                    ⟨ci.declTy, tmp.impl, tmp.del⟩ ao o hgi hInv hci hp
                | none =>
                  rw [destroy_of_owned_none ⟨tmp.declTy, ci.impl, ci.del⟩
                    (m.alloc o).2 hci]
                  exact inv_set_fresh_nofree cells m rel i ci
                    ⟨ci.declTy, tmp.impl, tmp.del⟩ o hgi hInv hci hp
  | moveAssignBetween i j =>
    by_cases hij : i = j
    · subst hij
      cases hg : cells[i]? with
      | none => simpa [step, hg] using hInv
      | some oc =>
        cases oc with
        | none => simpa [step, hg] using hInv
        | some c =>
          have hstep : step cr d0 ⟨cells, m, rel⟩ (Op.moveAssignBetween i i)
              = ⟨cells.set i (some c), m, rel⟩ := by
            simp [step, hg, Cell.moveAssignSelf, Cell.moveCtor, Cell.swapOp,
              Cell.destroy]
          rw [hstep, set_get_self cells i (some c) hg]
          exact hInv
    · cases hgi : cells[i]? with
      | none => simpa [step, hij, hgi] using hInv
      | some oci =>
        cases oci with
        | none => simpa [step, hij, hgi] using hInv
        | some ci =>
          cases hgj : cells[j]? with
          | none => simpa [step, hij, hgi, hgj] using hInv
          | some ocj =>
            cases ocj with
            | none => simpa [step, hij, hgi, hgj] using hInv
            | some cj =>
              have hstep : step cr d0 ⟨cells, m, rel⟩
                    (Op.moveAssignBetween i j)
                  = ⟨(cells.set i (some ⟨ci.declTy, cj.impl, cj.del⟩)).set j
                        (some ⟨cj.declTy, none, cj.del⟩),
                      Cell.destroy ⟨cj.declTy, ci.impl, ci.del⟩ m, rel⟩ := by
                simp [step, hij, hgi, hgj, Cell.moveAssign, Cell.moveCtor,
                  Cell.swapOp]
              rw [hstep]
              cases hci : ci.ownedPtr with
              | some ao =>
                rw [destroy_of_owned_some ⟨cj.declTy, ci.impl, ci.del⟩
                  m ao hci]
                exact inv_move_assign_free cells m rel i j ci cj
                  ⟨ci.declTy, cj.impl, cj.del⟩ ⟨cj.declTy, none, cj.del⟩
                  ao hij hgi hgj hInv hci rfl rfl
              | none =>
                rw [destroy_of_owned_none ⟨cj.declTy, ci.impl, ci.del⟩ m hci]
                exact inv_move_assign_nofree cells m rel i j ci cj
                  ⟨ci.declTy, cj.impl, cj.del⟩ ⟨cj.declTy, none, cj.del⟩
                  hij hgi hgj hInv hci rfl rfl
  | resetNew i c0 v =>
    cases hg : cells[i]? with
    | none => simpa [step, hg] using hInv
    | some oc =>
      cases oc with
      | none => simpa [step, hg] using hInv
      | some cc =>
        have hstep : step cr d0 ⟨cells, m, rel⟩ (Op.resetNew i c0 v)
            = ⟨cells.set i
                  (some ⟨cc.declTy, some ⟨cc.declTy, some m.next⟩, cc.del⟩),
                Cell.destroy cc (m.alloc ⟨c0, v⟩).2, rel⟩ := by
          simp [step, hg, Cell.reset, Mem.alloc]
        rw [hstep]
        cases hci : cc.ownedPtr with
        | some ao =>
          rw [destroy_of_owned_some cc (m.alloc ⟨c0, v⟩).2 ao hci]
          exact inv_set_fresh_free cells m rel i cc
            ⟨cc.declTy, some ⟨cc.declTy, some m.next⟩, cc.del⟩ ao ⟨c0, v⟩
            hg hInv hci rfl
        | none =>
          rw [destroy_of_owned_none cc (m.alloc ⟨c0, v⟩).2 hci]
          exact inv_set_fresh_nofree cells m rel i cc
            ⟨cc.declTy, some ⟨cc.declTy, some m.next⟩, cc.del⟩ ⟨c0, v⟩
            hg hInv hci rfl
  | resetNull i =>
    cases hg : cells[i]? with
    | none => simpa [step, hg] using hInv
    | some oc =>
      cases oc with
      | none => simpa [step, hg] using hInv
      | some cc =>
        have hstep : step cr d0 ⟨cells, m, rel⟩ (Op.resetNull i)
            = ⟨cells.set i (some ⟨cc.declTy, none, cc.del⟩),
                Cell.destroy cc m, rel⟩ := by
          simp [step, hg, Cell.reset]
        rw [hstep]
        cases hci : cc.ownedPtr with
        | some ao =>
          rw [destroy_of_owned_some cc m ao hci]
          exact inv_set_drop cells m rel i cc
            (some ⟨cc.declTy, none, cc.del⟩) ao hg hInv hci rfl
        | none =>
          rw [destroy_of_owned_none cc m hci]
          exact inv_set_inert cells m rel i cc
            (some ⟨cc.declTy, none, cc.del⟩) hg hInv hci rfl
  | releaseKeep i =>
    cases hg : cells[i]? with
    | none => simpa [step, hg] using hInv
    | some oc =>
      cases oc with
      | none => simpa [step, hg] using hInv
      | some cc =>
        cases hi : cc.impl with
        | none => simpa [step, hg, Cell.releaseOp, hi] using hInv
        | some s =>
          cases hp : s.ptr with
          | some ao =>
            have hstep : step cr d0 ⟨cells, m, rel⟩ (Op.releaseKeep i)
                = ⟨cells.set i (some ⟨cc.declTy, none, cc.del⟩), m,
                    ao :: rel⟩ := by
              simp [step, hg, Cell.releaseOp, Shim.releaseModel,
                Shim.destroy, hi, hp]
            rw [hstep]
            exact inv_release_slot cells m rel i cc
              (some ⟨cc.declTy, none, cc.del⟩) ao hg hInv
              (by simp [Cell.ownedPtr, hi, hp]) rfl
          | none =>
            have hstep : step cr d0 ⟨cells, m, rel⟩ (Op.releaseKeep i)
                = ⟨cells.set i (some ⟨cc.declTy, none, cc.del⟩), m, rel⟩ := by
              simp [step, hg, Cell.releaseOp, Shim.releaseModel,
                Shim.destroy, hi, hp]
            rw [hstep]
            exact inv_set_inert cells m rel i cc
              (some ⟨cc.declTy, none, cc.del⟩) hg hInv
              (by simp [Cell.ownedPtr, hi, hp]) rfl
  | dropCell i =>
    cases hg : cells[i]? with
    | none => simpa [step, hg] using hInv
    | some oc =>
      cases oc with
      | none => simpa [step, hg] using hInv
      | some c =>
        have hstep : step cr d0 ⟨cells, m, rel⟩ (Op.dropCell i)
            = ⟨cells.set i none, Cell.destroy c m, rel⟩ := by
          simp [step, hg]
        rw [hstep]
        cases hci : c.ownedPtr with
        | some ao =>
          rw [destroy_of_owned_some c m ao hci]
          exact inv_set_drop cells m rel i c none ao hg hInv hci rfl
        | none =>
          rw [destroy_of_owned_none c m hci]
          exact inv_set_inert cells m rel i c none hg hInv hci rfl

theorem inv_init : Inv (⟨[], Mem.empty, []⟩ : St CTy Val Del) := by
  intro a
  constructor <;> simp [liveCount, freedCount, numOwners, Mem.empty]

theorem inv_foldl (cr : CTy → Val → Option Val) (d0 : Del)
    (ops : List (Op CTy Val)) :
    ∀ st : St CTy Val Del, Inv st → Inv (ops.foldl (step cr d0) st) := by
  induction ops with
  | nil => exact fun st h => h
  | cons op ops ih => exact fun st h => ih _ (inv_step cr d0 st op h)

theorem inv_run (cr : CTy → Val → Option Val) (d0 : Del)
    (ops : List (Op CTy Val)) : Inv (run cr d0 ops : St CTy Val Del) :=
  inv_foldl cr d0 ops _ inv_init

/-- C7: over every program of cell operations in which every cell is
eventually destroyed, every allocated address is deleted exactly once in
total — freed by the deletion policy exactly once, unless it was handed out
by `release`, in which case the cell never frees it (the caller does);
released addresses are never freed by any cell; and a shim whose pointer has
been released performs no deletion when destroyed. -/
theorem C7_deletion_applied_exactly_once
    (CTy Val Del : Type) (cr : CTy → Val → Option Val) (d0 : Del)
    (ops : List (Op CTy Val))
    (hdone : (run cr d0 ops : St CTy Val Del).cells.all Option.isNone
      = true) :
    (∀ a, a < (run cr d0 ops : St CTy Val Del).mem.next →
      freedCount (run cr d0 ops : St CTy Val Del).mem a
        + (run cr d0 ops : St CTy Val Del).rel.count a = 1)
    ∧ (∀ a, a ∈ (run cr d0 ops : St CTy Val Del).rel →
        a ∉ (run cr d0 ops : St CTy Val Del).mem.freed)
    ∧ (∀ (s : Shim CTy) (m' : Mem CTy Val),
        s.ptr = none → s.destroy m' = m') := by
  have hInv := inv_run cr d0 ops
  have hzero : ∀ a, numOwners (run cr d0 ops : St CTy Val Del).cells a = 0 := by
    intro a
    refine List.countP_eq_zero.mpr ?_
    intro oc hmem
    have hone := List.all_eq_true.mp hdone oc hmem
    cases oc with
    | none => simp [ownsB, entryPtr]
    | some c => simp at hone
  refine ⟨?_, ?_, ?_⟩
  · intro a ha
    have h1 := (hInv a).1
    have h2 := (hInv a).2
    have h0 := hzero a
    simp only [if_pos ha] at h1
    omega
  · intro a hmem hmf
    have h1 := (hInv a).1
    have h2 := (hInv a).2
    have h0 := hzero a
    have hr : 0 < ((run cr d0 ops : St CTy Val Del)).rel.count a :=
      List.count_pos_iff.mpr hmem
    have hf : 0 < freedCount (run cr d0 ops : St CTy Val Del).mem a :=
      List.count_pos_iff.mpr hmf
    by_cases hlt : a < (run cr d0 ops : St CTy Val Del).mem.next
    · rw [if_pos hlt] at h1
      omega
    · rw [if_neg hlt] at h1
      omega
  · intro s m' hp
    simp [Shim.destroy, hp]

/-- C7 witness: the theorem applied to a concrete program that exercises
every operation and destroys all four cells; address 0 is deleted exactly
once. -/
theorem C7_deletion_applied_exactly_once_witness :
    (run sliceCopy () prog7 : St SliceTy Unit Unit).cells.all Option.isNone
      = true
    ∧ (freedCount (run sliceCopy () prog7 : St SliceTy Unit Unit).mem 0
        + (run sliceCopy () prog7 : St SliceTy Unit Unit).rel.count 0 = 1) :=
  ⟨by decide,
    (C7_deletion_applied_exactly_once SliceTy Unit Unit sliceCopy () prog7
      (by decide)).1 0 (by decide)⟩

end ValuePtr
